import Mathlib

deriving instance DecidableEq for Except

/-
  Verification of the secure-file-manager core against its specification.

  Shallow embedding of the Python sources:
    - secure_file_manager/services/file_service.py     (FileService)
    - secure_file_manager/services/archive_service.py  (ArchiveService)
    - secure_file_manager/services/json_xml_service.py (JsonXmlService)
    - secure_file_manager/services/crypto_service.py   (CryptoService)
    - secure_file_manager/config.py                    (Settings)

  File contents are byte lists (List Nat); filesystem paths are lists of
  path components, each component a list of characters, rooted at the
  configured storage root.  External capabilities (SHA-256, Fernet
  encryption with a fresh discarded key, mimetype guessing, the JSON and
  XML parsers) are parameters of a Config record: the spec treats them as
  collaborators, and no claim depends on their internals.
-/

namespace SFM

/-- Error taxonomy of spec section 7, mapped from the ValueError messages the
services raise.  WriteFailed models the OS error raised by write_bytes when
the target path is the sandbox directory itself. -/
inductive Err where
  | InvalidName
  | PathTraversal
  | SizeLimitExceeded
  | DuplicateName
  | NotFound
  | NotSupported
  | ArchiveTooManyFiles
  | EntryTooLarge
  | SuspiciousCompressionRatio
  | ArchiveTooLarge
  | DangerousPath
  | CorruptArchive
  | InvalidFormat
  | WriteFailed
  deriving DecidableEq, Repr

/-- Settings relevant to the core (config.py); all plain numeric thresholds. -/
structure Settings where
  max_file_size : Nat
  max_zip_size : Nat
  max_archive_files : Nat
  deriving DecidableEq, Repr

/-! ## Path sanitizer (FileService._validate_filename / _get_safe_file_path) -/

/-- The dangerous character set of _validate_filename:  <>:"|?*\\/ and NUL. -/
def dangerousChars : List Char := ['<', '>', ':', '"', '|', '?', '*', '\\', '/', '\x00']

/-- filename.replace(char, '_') for each dangerous char. -/
def sanitizeChars (l : List Char) : List Char :=
  l.map fun c => if c ∈ dangerousChars then '_' else c

/-- filename.replace('..', '_'): left-to-right, non-overlapping. -/
def replaceDotDot : List Char → List Char
  | [] => []
  | [c] => [c]
  | c :: d :: rest =>
    if c = '.' ∧ d = '.' then '_' :: replaceDotDot rest
    else c :: replaceDotDot (d :: rest)

/-- str.strip(chars): remove leading and trailing characters of the set. -/
def stripChars (bad : List Char) (l : List Char) : List Char :=
  ((l.dropWhile (fun c => decide (c ∈ bad))).reverse.dropWhile
      (fun c => decide (c ∈ bad))).reverse

/-- str.strip(): remove leading and trailing whitespace. -/
def stripWs (l : List Char) : List Char :=
  ((l.dropWhile Char.isWhitespace).reverse.dropWhile Char.isWhitespace).reverse

/-- FileService._validate_filename: length check on the raw name, dangerous
character replacement, '..' replacement, emptiness-after-strip check,
whitespace strip of the result. -/
def validateFilename (filename : String) : Except Err (List Char) :=
  if filename.toList.length = 0 ∨ filename.toList.length > 255 then
    .error .InvalidName
  else if stripChars ['.', '_'] (replaceDotDot (sanitizeChars filename.toList)) = [] then
    .error .InvalidName
  else
    .ok (stripWs (replaceDotDot (sanitizeChars filename.toList)))

/-- A path component. -/
abbrev Name := List Char

/-- A filesystem path: components relative to the configured storage root. -/
abbrev FsPath := List Name

/-- The owner sandbox directory  root / f"user_{user.id}". -/
def sandbox (uid : Nat) : FsPath :=
  [ 'u' :: 's' :: 'e' :: 'r' :: '_' :: (toString uid).toList ]

/-- One step of Path.resolve(): empty and "." components vanish, ".."
removes the last component, anything else is appended. -/
def resolveComp (acc : FsPath) (c : Name) : FsPath :=
  if c = [] ∨ c = ['.'] then acc
  else if c = ['.', '.'] then acc.dropLast
  else acc ++ [c]

/-- Path.resolve(): normalize a component list from the root. -/
def resolvePath (comps : List Name) : FsPath :=
  comps.foldl resolveComp []

/-- Split a character list into path components at '/'. -/
def splitSlash : List Char → List Name
  | [] => [[]]
  | c :: rest =>
    if c = '/' then [] :: splitSlash rest
    else
      match splitSlash rest with
      | [] => [[c]]
      | p :: ps => (c :: p) :: ps

/-- FileService._get_safe_file_path: sanitize the name, join it to the owner
sandbox, resolve, and require the result to stay under the sandbox
(relative_to check); otherwise PathTraversal. -/
def getSafeFilePath (uid : Nat) (filename : String) : Except Err FsPath :=
  match validateFilename filename with
  | .error e => .error e
  | .ok s =>
    if (sandbox uid).isPrefixOf (resolvePath (sandbox uid ++ splitSlash s)) then
      .ok (resolvePath (sandbox uid ++ splitSlash s))
    else .error .PathTraversal

/-! ## JSON / XML service (json_xml_service.py)

The parsers themselves (json.loads, ElementTree with the secure parser) are
external capabilities out of scope per the spec; they appear as Config
fields producing the parsed trees below.  The security policy — size,
depth and element-count limits, and the warn-only suspicious-pattern scan —
is embedded faithfully. -/

mutual
inductive Json where
  | null : Json
  | bool (b : Bool) : Json
  | num (n : Int) : Json
  | str (s : String) : Json
  | arr (xs : JsonList) : Json
  | obj (kvs : JsonObj) : Json
inductive JsonList where
  | nil : JsonList
  | cons (hd : Json) (tl : JsonList) : JsonList
inductive JsonObj where
  | nil : JsonObj
  | cons (key : String) (val : Json) (tl : JsonObj) : JsonObj
end

mutual
inductive Xml where
  | elem (tag : String) (attrs : List (String × String)) (text : String)
      (children : XmlList) : Xml
inductive XmlList where
  | nil : XmlList
  | cons (hd : Xml) (tl : XmlList) : XmlList
end

/-- Hard limits of JsonXmlService.__init__. -/
def maxJsonSize : Nat := 10 * 1024 * 1024

def maxXmlSize : Nat := 10 * 1024 * 1024

def maxJsonDepthLimit : Nat := 100

def maxXmlElements : Nat := 10000

/- JsonXmlService._get_json_depth (without the early-return optimization,
which never changes the outcome of the "depth > limit" comparison). -/
mutual
def jsonDepth : Json → Nat
  | .null => 0
  | .bool _ => 0
  | .num _ => 0
  | .str _ => 0
  | .arr xs => jsonListDepth xs
  | .obj kvs => jsonObjDepth kvs
def jsonListDepth : JsonList → Nat
  | .nil => 0
  | .cons hd tl => max (jsonDepth hd + 1) (jsonListDepth tl)
def jsonObjDepth : JsonObj → Nat
  | .nil => 0
  | .cons _ v tl => max (jsonDepth v + 1) (jsonObjDepth tl)
end

/-- The suspicious-pattern list of _validate_json_security (the source lists
'eval(' twice). -/
def suspiciousPatterns : List String :=
  ["<script", "</script>", "javascript:", "data:",
   "eval(", "setTimeout(", "setInterval(",
   "__import__", "exec(", "eval("]

/-- Patterns found in one string value (matched against its lowercase). -/
def strWarnings (s : String) : List String :=
  suspiciousPatterns.filter fun p => decide (p.toList <:+: s.toList.map Char.toLower)

/- JsonXmlService._validate_json_security: walks the value and collects a
warning per suspicious pattern per string; it never raises. -/
mutual
def suspiciousJson : Json → List String
  | .null => []
  | .bool _ => []
  | .num _ => []
  | .str s => strWarnings s
  | .arr xs => suspiciousJsonList xs
  | .obj kvs => suspiciousJsonObj kvs
def suspiciousJsonList : JsonList → List String
  | .nil => []
  | .cons hd tl => suspiciousJson hd ++ suspiciousJsonList tl
def suspiciousJsonObj : JsonObj → List String
  | .nil => []
  | .cons _ v tl => suspiciousJson v ++ suspiciousJsonObj tl
end

/- Number of elements of the parsed tree (len(list(root.iter()))). -/
mutual
def xmlCount : Xml → Nat
  | .elem _ _ _ cs => 1 + xmlCountList cs
def xmlCountList : XmlList → Nat
  | .nil => 0
  | .cons hd tl => xmlCount hd + xmlCountList tl
end

/- _validate_xml_security and _xml_to_dict combined: the scanned strings are
the attribute values and the stripped element texts. -/
mutual
def suspiciousXml : Xml → List String
  | .elem _ attrs text cs =>
    (attrs.map fun a => strWarnings a.2).flatten ++
    (if stripWs text.toList = [] then []
     else strWarnings (String.mk (stripWs text.toList))) ++
    suspiciousXmlList cs
def suspiciousXmlList : XmlList → List String
  | .nil => []
  | .cons hd tl => suspiciousXml hd ++ suspiciousXmlList tl
end

/-- External capabilities of the core, per spec sections 1 and 6: the
numeric thresholds, the SHA-256 checksum, Fernet encryption under the fresh
discarded key, mimetypes.guess_type, and the JSON/XML parsers. -/
structure Config where
  settings : Settings
  sha256 : List Nat → String
  encryptData : List Nat → List Nat
  guessMime : String → Option String
  jsonParse : List Nat → Option Json
  xmlParse : List Nat → Option Xml

/-- JsonXmlService.safe_load_json: size limit, parse, depth limit, then the
warn-only security scan.  Returns the parsed value with the warnings
produced, or none on any ValueError. -/
def safeLoadJson (cfg : Config) (content : List Nat) : Option (Json × List String) :=
  if content.length > maxJsonSize then none
  else
    match cfg.jsonParse content with
    | none => none
    | some d =>
      if jsonDepth d > maxJsonDepthLimit then none
      else some (d, suspiciousJson d)

/-- JsonXmlService.safe_load_xml: size limit, secure parse, element-count
limit, then the warn-only security scan over the dict form. -/
def safeLoadXml (cfg : Config) (content : List Nat) : Option (Xml × List String) :=
  if content.length > maxXmlSize then none
  else
    match cfg.xmlParse content with
    | none => none
    | some x =>
      if xmlCount x > maxXmlElements then none
      else some (x, suspiciousXml x)

/-- filename.lower().endswith(suffix). -/
def endsLower (s suffix : String) : Bool :=
  suffix.toList.isSuffixOf (s.toList.map Char.toLower)

/-- JsonXmlService.validate_file_format: true plus the scan warnings on
success; false when loading raised. -/
def validateFileFormat (cfg : Config) (filename : String) (content : List Nat) :
    Bool × List String :=
  if endsLower filename ".json" then
    match safeLoadJson cfg content with
    | some r => (true, r.2)
    | none => (false, [])
  else if endsLower filename ".xml" then
    match safeLoadXml cfg content with
    | some r => (true, r.2)
    | none => (false, [])
  else (true, [])

/-- The format gate at the top of FileService.create_file: only .json/.xml
names (case-insensitive) are checked. -/
def fmtCheck (cfg : Config) (filename : String) (content : List Nat) :
    Bool × List String :=
  if endsLower filename ".json" || endsLower filename ".xml" then
    validateFileFormat cfg filename content
  else (true, [])

/-! ## File store state (models.File rows plus the on-disk byte store) -/

/-- One File row (models/file.py) as created by FileService. -/
structure FileRec where
  id : Nat
  filename : Name
  original_name : String
  size : Nat
  mime_type : Option String
  checksum : String
  storage_path : FsPath
  is_encrypted : Bool
  owner_id : Nat
  directory_id : Option Nat
  deriving DecidableEq, Repr

/-- The byte store: newest write first; a path's content is its first entry. -/
abbrev Disk := List (FsPath × List Nat)

def diskGet : Disk → FsPath → Option (List Nat)
  | [], _ => none
  | (q, b) :: rest, p => if q = p then some b else diskGet rest p

/-- Path.write_bytes: overwrite by shadowing. -/
def diskSet (d : Disk) (p : FsPath) (b : List Nat) : Disk := (p, b) :: d

/-- Path.unlink (guarded by exists() in delete_file, so removing an absent
path is a no-op either way). -/
def diskRemove (d : Disk) (p : FsPath) : Disk :=
  d.filter fun q => decide (¬ q.1 = p)

/-- The combined state: on-disk bytes, File rows, and the next row id. -/
structure St where
  disk : Disk
  files : List FileRec
  next_id : Nat
  deriving DecidableEq, Repr

/-- select File where id == file_id and owner_id == user.id. -/
def findRec : List FileRec → Nat → Nat → Option FileRec
  | [], _, _ => none
  | f :: rest, uid, fid =>
    if f.id = fid ∧ f.owner_id = uid then some f else findRec rest uid fid

/-- The duplicate-name query of create_file: original_name, owner and
directory (IS NULL when no directory is given). -/
def dupExists (files : List FileRec) (uid : Nat) (fn : String)
    (dir : Option Nat) : Bool :=
  files.any fun f =>
    decide (f.original_name = fn ∧ f.owner_id = uid ∧ f.directory_id = dir)

/-! ## File store operations (file_service.py)

Each operation returns the (possibly updated) state together with the
result.  Every modelled failure path in the source raises before mutating
state, so errors are paired with the unchanged input state.  The audit log
(OperationService) is orthogonal to all claims and not modelled. -/

/-- FileService.create_file: size limit, JSON/XML format gate, safe path,
duplicate check, optional encryption under a fresh discarded key, byte
write, checksum of the bytes on disk, row insert.  write_bytes to the
sandbox directory itself (empty sanitized name) fails at the OS level,
modelled as WriteFailed.  The returned list holds the warn-only scan
warnings. -/
def createFile (cfg : Config) (st : St) (uid : Nat) (filename : String)
    (content : List Nat) (encrypt : Bool) (directory_id : Option Nat) :
    St × Except Err (FileRec × List String) :=
  if content.length > cfg.settings.max_file_size then
    (st, .error .SizeLimitExceeded)
  else if (fmtCheck cfg filename content).1 = false then
    (st, .error .InvalidFormat)
  else
    match getSafeFilePath uid filename with
    | .error e => (st, .error e)
    | .ok path =>
      if dupExists st.files uid filename directory_id then
        (st, .error .DuplicateName)
      else if path = sandbox uid then
        (st, .error .WriteFailed)
      else
        ({ disk := diskSet st.disk path
             (if encrypt then cfg.encryptData content else content),
           files := st.files ++
             [{ id := st.next_id,
                filename := path.getLastD [],
                original_name := filename,
                size := content.length,
                mime_type := cfg.guessMime filename,
                checksum := cfg.sha256
                  (if encrypt then cfg.encryptData content else content),
                storage_path := path,
                is_encrypted := encrypt,
                owner_id := uid,
                directory_id := directory_id }],
           next_id := st.next_id + 1 },
         .ok ({ id := st.next_id,
                filename := path.getLastD [],
                original_name := filename,
                size := content.length,
                mime_type := cfg.guessMime filename,
                checksum := cfg.sha256
                  (if encrypt then cfg.encryptData content else content),
                storage_path := path,
                is_encrypted := encrypt,
                owner_id := uid,
                directory_id := directory_id },
               (fmtCheck cfg filename content).2))

/-- FileService.read_file: row lookup, on-disk existence, byte read, then
the encrypted-flag rejection.  Reads never mutate state. -/
def readFile (cfg : Config) (st : St) (uid : Nat) (fid : Nat) :
    Except Err (FileRec × List Nat) :=
  match findRec st.files uid fid with
  | none => .error .NotFound
  | some f =>
    match diskGet st.disk f.storage_path with
    | none => .error .NotFound
    | some content =>
      if f.is_encrypted then .error .NotSupported
      else .ok (f, content)

/-- FileService.update_file: row lookup, size limit, encrypted-flag
rejection, then overwrite bytes and recompute size and checksum from the
bytes on disk. -/
def updateFile (cfg : Config) (st : St) (uid : Nat) (fid : Nat)
    (newContent : List Nat) : St × Except Err FileRec :=
  match findRec st.files uid fid with
  | none => (st, .error .NotFound)
  | some f =>
    if newContent.length > cfg.settings.max_file_size then
      (st, .error .SizeLimitExceeded)
    else if f.is_encrypted then
      (st, .error .NotSupported)
    else
      ({ disk := diskSet st.disk f.storage_path newContent,
         files := st.files.map fun g =>
           if g.id = f.id then
             { g with size := newContent.length,
                      checksum := cfg.sha256 newContent }
           else g,
         next_id := st.next_id },
       .ok { f with size := newContent.length,
                    checksum := cfg.sha256 newContent })

/-- FileService.delete_file: row lookup (raising NotFound when absent),
unlink of the on-disk bytes if present, row removal, returning true. -/
def deleteFile (cfg : Config) (st : St) (uid : Nat) (fid : Nat) :
    St × Except Err Bool :=
  match findRec st.files uid fid with
  | none => (st, .error .NotFound)
  | some f =>
    ({ disk := diskRemove st.disk f.storage_path,
       files := st.files.filter fun g => decide (¬ g.id = f.id),
       next_id := st.next_id },
     .ok true)

/-! ## Archive validator and extractor (archive_service.py) -/

/-- One zipfile.ZipInfo, metadata only. -/
structure ZipEntry where
  filename : String
  file_size : Nat
  compress_size : Nat
  deriving DecidableEq, Repr

/-- ZipInfo.is_dir(): the name ends with a slash. -/
def ZipEntry.isDir (e : ZipEntry) : Bool :=
  decide (e.filename.toList.getLast? = some '/')

/-- The dangerous-path test of _validate_zip_archive:
'..' in filename or filename.startswith('/'). -/
def dangerousName (fn : String) : Bool :=
  decide (['.', '.'] <:+: fn.toList) || decide (fn.toList.head? = some '/')

/-- file_size / compress_size as an exact ratio (the source uses float
division; the thresholds 100 and 50 are compared exactly here). -/
def ratioOf (e : ZipEntry) : ℚ := (e.file_size : ℚ) / (e.compress_size : ℚ)

/-- The entry loop of ArchiveService._validate_zip_archive, carrying
file_count, total_uncompressed_size and the compression_ratios list, with
the per-entry checks in source order: size, ratio, dangerous path. -/
def zipLoop (s : Settings) :
    List ZipEntry → Nat → Nat → List ℚ → Except Err (Nat × Nat × List ℚ)
  | [], count, total, ratios => .ok (count, total, ratios)
  | e :: rest, count, total, ratios =>
    if e.isDir then zipLoop s rest count total ratios
    else if e.file_size > s.max_file_size then .error .EntryTooLarge
    else if 0 < e.compress_size then
      if ratioOf e > 100 then .error .SuspiciousCompressionRatio
      else if dangerousName e.filename then .error .DangerousPath
      else zipLoop s rest (count + 1) (total + e.file_size) (ratios ++ [ratioOf e])
    else if dangerousName e.filename then .error .DangerousPath
    else zipLoop s rest (count + 1) (total + e.file_size) ratios

/-- The aggregate checks after the loop of _validate_zip_archive, in source
order: entry count, total uncompressed size, mean compression ratio. -/
def aggChecks (s : Settings) (count total : Nat) (ratios : List ℚ) : Except Err Unit :=
  if count > s.max_archive_files then .error .ArchiveTooManyFiles
  else if total > s.max_zip_size then .error .ArchiveTooLarge
  else if ratios ≠ [] ∧ ratios.sum / (ratios.length : ℚ) > 50 then
    .error .SuspiciousCompressionRatio
  else .ok ()

/-- ArchiveService._validate_zip_archive: the metadata-only pre-pass over
the entry list, then the aggregate checks. -/
def validateZipArchive (s : Settings) (entries : List ZipEntry) : Except Err Unit :=
  match zipLoop s entries 0 0 [] with
  | .error e => .error e
  | .ok (count, total, ratios) => aggChecks s count total ratios

/-- The first per-entry check of _validate_zip_archive an entry fails,
if any (none for directory entries, which the loop skips). -/
def entryCheck (s : Settings) (e : ZipEntry) : Option Err :=
  if e.isDir then none
  else if e.file_size > s.max_file_size then some .EntryTooLarge
  else if 0 < e.compress_size ∧ ratioOf e > 100 then some .SuspiciousCompressionRatio
  else if dangerousName e.filename then some .DangerousPath
  else none

/-- Windows device names rejected by _validate_zip_entry. -/
def reservedNames : List Name :=
  (["CON", "PRN", "AUX", "NUL",
    "COM1", "COM2", "COM3", "COM4", "COM5", "COM6", "COM7", "COM8", "COM9",
    "LPT1", "LPT2", "LPT3", "LPT4", "LPT5", "LPT6", "LPT7", "LPT8",
    "LPT9"] : List String).map String.toList

/-- ArchiveService._validate_zip_entry: sanitize the entry name, resolve it
under the temporary extraction directory, and reject reserved device
names (upper-cased stem before the first dot). -/
def validateZipEntry (extractDir : FsPath) (e : ZipEntry) : Except Err Unit :=
  match validateFilename e.filename with
  | .error err => .error err
  | .ok sanitized =>
    if extractDir.isPrefixOf (resolvePath (extractDir ++ splitSlash sanitized)) then
      if (sanitized.map Char.toUpper).takeWhile (fun c => decide (¬ c = '.'))
          ∈ reservedNames then
        .error .InvalidName
      else .ok ()
    else .error .PathTraversal

/-- The extraction loop of _safe_zip_extraction: skip directories, validate
the entry, decompress its payload (recorded in the read log), register it
via create_file as extracted_<name>.  A failure aborts the loop; files
already registered stay registered (the inherited partial-failure
behavior). -/
def extractLoop (cfg : Config) (extractDir : FsPath) (payload : String → List Nat)
    (uid : Nat) :
    List ZipEntry → St → List FileRec → List String →
      St × Except Err (List FileRec) × List String
  | [], st, acc, log => (st, .ok acc, log)
  | e :: rest, st, acc, log =>
    if e.isDir then extractLoop cfg extractDir payload uid rest st acc log
    else
      match validateZipEntry extractDir e with
      | .error err => (st, .error err, log)
      | .ok _ =>
        match createFile cfg st uid ("extracted_" ++ e.filename)
            (payload e.filename) false none with
        | (st', .ok (f, _)) =>
          extractLoop cfg extractDir payload uid rest st' (acc ++ [f])
            (log ++ [e.filename])
        | (st', .error err) => (st', .error err, log ++ [e.filename])

/-- ArchiveService._safe_zip_extraction: the validator runs over metadata
before the loop reads any payload; the third component is the log of
entries actually decompressed. -/
def safeZipExtraction (cfg : Config) (st : St) (uid : Nat) (extractDir : FsPath)
    (entries : List ZipEntry) (payload : String → List Nat) :
    St × Except Err (List FileRec) × List String :=
  match validateZipArchive cfg.settings entries with
  | .error e => (st, .error e, [])
  | .ok _ => extractLoop cfg extractDir payload uid entries st [] []

/-- Non-directory entries (the ones the validator counts). -/
def activeEntries (l : List ZipEntry) : List ZipEntry :=
  l.filter fun e => !e.isDir

/-- file_count at the end of the validation loop. -/
def activeCount (l : List ZipEntry) : Nat := (activeEntries l).length

/-- total_uncompressed_size at the end of the validation loop. -/
def totalSize (l : List ZipEntry) : Nat :=
  ((activeEntries l).map (fun e => e.file_size)).sum

/-- compression_ratios at the end of the validation loop: one ratio per
non-directory entry with nonzero compressed size. -/
def ratiosOf (l : List ZipEntry) : List ℚ :=
  ((activeEntries l).filter fun e => decide (0 < e.compress_size)).map ratioOf

/-! ## Concrete fixtures for witnesses and counterexamples -/

/-- Concrete thresholds standing in for the configured Settings. -/
def testSettings : Settings :=
  { max_file_size := 1000, max_zip_size := 10000, max_archive_files := 10 }

/-- Very small thresholds, to exercise the size checks. -/
def tinySettings : Settings :=
  { max_file_size := 1, max_zip_size := 10, max_archive_files := 1 }

/-- A concrete instantiation of the external capabilities. -/
def testCfg : Config :=
  { settings := testSettings,
    sha256 := fun b => toString b.length,
    encryptData := fun b => b,
    guessMime := fun _ => none,
    jsonParse := fun _ => none,
    xmlParse := fun _ => none }

def tinyCfg : Config := { testCfg with settings := tinySettings }

/-- A parser that yields a JSON string containing a suspicious pattern. -/
def testCfgJson : Config :=
  { testCfg with jsonParse := fun _ => some (Json.str "eval(x)") }

/-- A parser that yields an XML element with a suspicious attribute value. -/
def testCfgXml : Config :=
  { testCfg with
    xmlParse := fun _ => some (Xml.elem "a" [("x", "eval(y)")] "" XmlList.nil) }

/-- The empty store. -/
def st0 : St := { disk := [], files := [], next_id := 0 }

/-- The record produced by create(user 1, "a.txt", [104, 105]). -/
def c4Rec : FileRec :=
  { id := 0, filename := ['a', '.', 't', 'x', 't'], original_name := "a.txt",
    size := 2, mime_type := none, checksum := "2",
    storage_path := [['u', 's', 'e', 'r', '_', '1'], ['a', '.', 't', 'x', 't']],
    is_encrypted := false, owner_id := 1, directory_id := none }

/-- The store after that create. -/
def c4St : St :=
  { disk := [([['u', 's', 'e', 'r', '_', '1'], ['a', '.', 't', 'x', 't']],
      [104, 105])],
    files := [c4Rec], next_id := 1 }

/-- A one-record store for exercising delete. -/
def c6Rec : FileRec :=
  { id := 0, filename := ['f'], original_name := "f",
    size := 1, mime_type := none, checksum := "1",
    storage_path := [['u', 's', 'e', 'r', '_', '1'], ['f']],
    is_encrypted := false, owner_id := 1, directory_id := none }

def c6St : St :=
  { disk := [([['u', 's', 'e', 'r', '_', '1'], ['f']], [1])],
    files := [c6Rec], next_id := 1 }

/-- Records of two creates whose names sanitize to the same storage path. -/
def c7Rec1 : FileRec :=
  { id := 0, filename := ['a', '_', 'b', '.', 't', 'x', 't'],
    original_name := "a_b.txt", size := 1, mime_type := none, checksum := "1",
    storage_path := [['u', 's', 'e', 'r', '_', '1'],
      ['a', '_', 'b', '.', 't', 'x', 't']],
    is_encrypted := false, owner_id := 1, directory_id := none }

def c7Rec2 : FileRec :=
  { id := 1, filename := ['a', '_', 'b', '.', 't', 'x', 't'],
    original_name := "a/b.txt", size := 1, mime_type := none, checksum := "1",
    storage_path := [['u', 's', 'e', 'r', '_', '1'],
      ['a', '_', 'b', '.', 't', 'x', 't']],
    is_encrypted := false, owner_id := 1, directory_id := none }

/-- The record and store of create(user 1, "w.txt", [7, 8]). -/
def c7WRec : FileRec :=
  { id := 0, filename := ['w', '.', 't', 'x', 't'], original_name := "w.txt",
    size := 2, mime_type := none, checksum := "2",
    storage_path := [['u', 's', 'e', 'r', '_', '1'], ['w', '.', 't', 'x', 't']],
    is_encrypted := false, owner_id := 1, directory_id := none }

def c7WSt : St :=
  { disk := [([['u', 's', 'e', 'r', '_', '1'], ['w', '.', 't', 'x', 't']],
      [7, 8])],
    files := [c7WRec], next_id := 1 }

/-- That record after update(user 1, id 0, [9]). -/
def c7WURec : FileRec :=
  { id := 0, filename := ['w', '.', 't', 'x', 't'], original_name := "w.txt",
    size := 1, mime_type := none, checksum := "1",
    storage_path := [['u', 's', 'e', 'r', '_', '1'], ['w', '.', 't', 'x', 't']],
    is_encrypted := false, owner_id := 1, directory_id := none }

def c7WUSt : St :=
  { disk := [([['u', 's', 'e', 'r', '_', '1'], ['w', '.', 't', 'x', 't']], [9]),
      ([['u', 's', 'e', 'r', '_', '1'], ['w', '.', 't', 'x', 't']], [7, 8])],
    files := [c7WURec], next_id := 1 }

/-- The encrypted record of create(user 1, "a_b.txt", [65], encrypt). -/
def c8Rec : FileRec :=
  { id := 0, filename := ['a', '_', 'b', '.', 't', 'x', 't'],
    original_name := "a_b.txt", size := 1, mime_type := none, checksum := "1",
    storage_path := [['u', 's', 'e', 'r', '_', '1'],
      ['a', '_', 'b', '.', 't', 'x', 't']],
    is_encrypted := true, owner_id := 1, directory_id := none }

/-- Store reached by creating that encrypted file. -/
def c8StA : St := (createFile tinyCfg st0 1 "a_b.txt" [65] true none).1

/-- Store reached from c8StA by creating "a/b.txt" — whose name sanitizes
to the same storage path — and then deleting it, which removes the
encrypted record's bytes while its row remains. -/
def c8St : St :=
  (deleteFile tinyCfg
    (createFile tinyCfg c8StA 1 "a/b.txt" [66] false none).1 1 1).1

/-! ### Sanitizer lemmas -/

theorem mem_sanitizeChars {c : Char} {l : List Char} (h : c ∈ sanitizeChars l) :
    c = '_' ∨ (c ∈ l ∧ c ∉ dangerousChars) := by
  rcases List.mem_map.mp h with ⟨a, ha, hc⟩
  by_cases hd : a ∈ dangerousChars
  · left
    rw [if_pos hd] at hc
    exact hc.symm
  · right
    rw [if_neg hd] at hc
    exact ⟨hc ▸ ha, hc ▸ hd⟩

theorem mem_replaceDotDot_aux : ∀ (n : Nat) (l : List Char), l.length ≤ n →
    ∀ c, c ∈ replaceDotDot l → c = '_' ∨ c ∈ l := by
  intro n
  induction n with
  | zero =>
    intro l hl c hc
    have : l = [] := List.length_eq_zero.mp (Nat.le_zero.mp hl)
    subst this
    simp [replaceDotDot] at hc
  | succ n ih =>
    intro l hl c hc
    match l with
    | [] => simp [replaceDotDot] at hc
    | [a] =>
      simp [replaceDotDot] at hc
      simp [hc]
    | a :: b :: rest =>
      by_cases hab : a = '.' ∧ b = '.'
      · rw [replaceDotDot, if_pos hab] at hc
        rcases List.mem_cons.mp hc with h | h
        · left; exact h
        · rcases ih rest (by simp at hl; omega) c h with h' | h'
          · left; exact h'
          · right; simp [h']
      · rw [replaceDotDot, if_neg hab] at hc
        rcases List.mem_cons.mp hc with h | h
        · right; simp [h]
        · rcases ih (b :: rest) (by simp at hl; simp; omega) c h with h' | h'
          · left; exact h'
          · right
            rcases List.mem_cons.mp h' with h'' | h'' <;> simp [h'']

theorem mem_replaceDotDot {l : List Char} {c : Char} (h : c ∈ replaceDotDot l) :
    c = '_' ∨ c ∈ l :=
  mem_replaceDotDot_aux l.length l (Nat.le_refl _) c h

theorem head?_replaceDotDot (x : Char) (xs : List Char) :
    (replaceDotDot (x :: xs)).head? =
      some (if x = '.' ∧ xs.head? = some '.' then '_' else x) := by
  match xs with
  | [] => simp [replaceDotDot]
  | y :: ys =>
    by_cases h : x = '.' ∧ y = '.'
    · simp [replaceDotDot, h]
    · rw [replaceDotDot, if_neg h]
      simp only [List.head?_cons, List.head?]
      congr 1
      rw [if_neg]
      intro hc
      exact h ⟨hc.1, by simpa using hc.2⟩

theorem replaceDotDot_noDD_aux : ∀ (n : Nat) (l : List Char), l.length ≤ n →
    ¬ ['.', '.'] <:+: replaceDotDot l := by
  intro n
  induction n with
  | zero =>
    intro l hl
    have : l = [] := List.length_eq_zero.mp (Nat.le_zero.mp hl)
    subst this
    simp [replaceDotDot]
  | succ n ih =>
    intro l hl
    match l with
    | [] => simp [replaceDotDot]
    | [a] =>
      intro h
      have := h.length_le
      simp [replaceDotDot] at this
    | a :: b :: rest =>
      by_cases hab : a = '.' ∧ b = '.'
      · rw [replaceDotDot, if_pos hab]
        intro h
        rcases List.infix_cons_iff.mp h with hp | hi
        · rcases hp with ⟨t, ht⟩
          simp at ht
        · exact ih rest (by simp at hl; omega) hi
      · rw [replaceDotDot, if_neg hab]
        intro h
        rcases List.infix_cons_iff.mp h with hp | hi
        · rcases hp with ⟨t, ht⟩
          have ha : a = '.' := by
            have := congrArg List.head? ht
            simpa using this.symm
          have hb : (replaceDotDot (b :: rest)).head? = some '.' := by
            have htl := congrArg List.tail ht
            simp at htl
            rw [← htl]
            simp
          rw [head?_replaceDotDot] at hb
          by_cases hbr : b = '.' ∧ rest.head? = some '.'
          · rw [if_pos hbr] at hb
            simp at hb
          · rw [if_neg hbr] at hb
            simp at hb
            exact hab ⟨ha, hb⟩
        · exact ih (b :: rest) (by simp at hl; simp; omega) hi

theorem replaceDotDot_noDD (l : List Char) : ¬ ['.', '.'] <:+: replaceDotDot l :=
  replaceDotDot_noDD_aux l.length l (Nat.le_refl _)

theorem stripInfix (p : Char → Bool) (l : List Char) :
    ((l.dropWhile p).reverse.dropWhile p).reverse <:+: l := by
  have h1 : l.dropWhile p <:+ l := List.dropWhile_suffix p
  have h2 : (l.dropWhile p).reverse.dropWhile p <:+ (l.dropWhile p).reverse :=
    List.dropWhile_suffix p
  have h3 : ((l.dropWhile p).reverse.dropWhile p).reverse <+: l.dropWhile p := by
    have h4 := List.reverse_prefix.mpr h2
    simpa using h4
  exact h3.isInfix.trans h1.isInfix

theorem validateFilename_ok {fn : String} {s : List Char}
    (h : validateFilename fn = .ok s) :
    s = stripWs (replaceDotDot (sanitizeChars fn.toList)) := by
  unfold validateFilename at h
  split at h
  · exact absurd h (by simp)
  · split at h
    · exact absurd h (by simp)
    · simpa using h.symm

theorem validateFilename_no_slash {fn : String} {s : List Char}
    (h : validateFilename fn = .ok s) : '/' ∉ s := by
  intro hmem
  rw [validateFilename_ok h] at hmem
  have h1 : '/' ∈ replaceDotDot (sanitizeChars fn.toList) :=
    ((stripInfix _ _).sublist.subset) hmem
  rcases mem_replaceDotDot h1 with h2 | h2
  · simp at h2
  · rcases mem_sanitizeChars h2 with h3 | h3
    · simp at h3
    · exact h3.2 (by simp [dangerousChars])

theorem validateFilename_noDD {fn : String} {s : List Char}
    (h : validateFilename fn = .ok s) : ¬ ['.', '.'] <:+: s := by
  intro hdd
  rw [validateFilename_ok h] at hdd
  exact replaceDotDot_noDD _ (hdd.trans (stripInfix _ _))

theorem validateFilename_error {fn : String} {e : Err}
    (h : validateFilename fn = .error e) : e = .InvalidName := by
  unfold validateFilename at h
  split at h
  · simpa using h.symm
  · split at h
    · simpa using h.symm
    · exact absurd h (by simp)

theorem splitSlash_no_slash {l : List Char} (h : '/' ∉ l) : splitSlash l = [l] := by
  induction l with
  | nil => rfl
  | cons c rest ih =>
    have hc : ¬ c = '/' := fun hc => h (hc ▸ List.mem_cons_self c rest)
    have hr : '/' ∉ rest := fun hr => h (List.mem_cons_of_mem c hr)
    rw [splitSlash, if_neg hc, ih hr]

theorem sandbox_resolve (uid : Nat) :
    resolveComp [] ('u' :: 's' :: 'e' :: 'r' :: '_' :: (toString uid).toList) =
      sandbox uid := by
  have h1 : ¬ ('u' :: 's' :: 'e' :: 'r' :: '_' :: (toString uid).toList = ([] : Name) ∨
      'u' :: 's' :: 'e' :: 'r' :: '_' :: (toString uid).toList = ['.']) := by
    intro h
    rcases h with h | h
    · exact List.noConfusion h
    · injection h with h1 h2
      exact absurd h1 (by decide)
  have h2 : ¬ 'u' :: 's' :: 'e' :: 'r' :: '_' :: (toString uid).toList = ['.', '.'] := by
    intro h
    injection h with ha hb
    exact absurd ha (by decide)
  unfold resolveComp
  rw [if_neg h1, if_neg h2]
  rfl

/-- C1 analysis core: the sanitize-then-resolve pipeline either fails with
InvalidName or returns the sandbox extended by the single sanitized
component (or the sandbox itself); it never takes the PathTraversal branch. -/
theorem getSafeFilePath_cases (uid : Nat) (fn : String) :
    (∃ s, validateFilename fn = .ok s ∧
      (getSafeFilePath uid fn = .ok (sandbox uid) ∨
       getSafeFilePath uid fn = .ok (sandbox uid ++ [s]))) ∨
    getSafeFilePath uid fn = .error .InvalidName := by
  cases h : validateFilename fn with
  | error e =>
    right
    rw [validateFilename_error h] at h
    unfold getSafeFilePath
    rw [h]
  | ok s =>
    left
    refine ⟨s, rfl, ?_⟩
    have hsplit : splitSlash s = [s] := splitSlash_no_slash (validateFilename_no_slash h)
    have hdd : ¬ s = ['.', '.'] := fun hs =>
      validateFilename_noDD h (hs ▸ List.infix_rfl)
    have hresolved : resolvePath (sandbox uid ++ splitSlash s) =
        (if s = [] ∨ s = ['.'] then sandbox uid else sandbox uid ++ [s]) := by
      rw [hsplit]
      show resolvePath
        (('u' :: 's' :: 'e' :: 'r' :: '_' :: (toString uid).toList) :: [s]) = _
      unfold resolvePath
      rw [List.foldl_cons, List.foldl_cons, List.foldl_nil, sandbox_resolve]
      unfold resolveComp
      by_cases hs : s = [] ∨ s = ['.']
      · rw [if_pos hs, if_pos hs]
      · rw [if_neg hs, if_neg hs, if_neg hdd]
    unfold getSafeFilePath
    rw [h]
    simp only
    rw [hresolved]
    by_cases hs : s = [] ∨ s = ['.']
    · left
      rw [if_pos hs, if_pos]
      exact List.isPrefixOf_iff_prefix.mpr List.prefix_rfl
    · right
      rw [if_neg hs, if_pos]
      exact List.isPrefixOf_iff_prefix.mpr (List.prefix_append _ _)

/-- C1 (amended): for every filename — in particular one containing "../" or
an absolute prefix — the sanitize-then-resolve pipeline used by create never
fails with PathTraversal: sanitization replaces every path separator and
every ".." with underscores first, so the resolved path always stays under
the owner sandbox.  Any ok result is prefixed by the sandbox. -/
theorem c1_pipeline_never_path_traversal (uid : Nat) (fn : String) :
    getSafeFilePath uid fn ≠ .error .PathTraversal ∧
    (∀ p, getSafeFilePath uid fn = .ok p → sandbox uid <+: p) := by
  rcases getSafeFilePath_cases uid fn with ⟨s, _, h | h⟩ | h
  · exact ⟨by rw [h]; simp, fun p hp => by
      rw [h] at hp
      injection hp with hp
      exact hp ▸ List.prefix_rfl⟩
  · exact ⟨by rw [h]; simp, fun p hp => by
      rw [h] at hp
      injection hp with hp
      exact hp ▸ List.prefix_append _ _⟩
  · exact ⟨by rw [h]; simp, fun p hp => by rw [h] at hp; exact absurd hp (by simp)⟩

/-- C1 witness: the theorem applied at a concrete benign input. -/
theorem c1_witness :
    getSafeFilePath 2 "notes.txt" ≠ .error .PathTraversal ∧
    sandbox 2 <+:
      [['u', 's', 'e', 'r', '_', '2'],
       ['n', 'o', 't', 'e', 's', '.', 't', 'x', 't']] :=
  ⟨(c1_pipeline_never_path_traversal 2 "notes.txt").1,
   (c1_pipeline_never_path_traversal 2 "notes.txt").2 _ (by rfl)⟩

/-- C1 counterexample to the claim as stated: a filename containing "../"
and a filename with an absolute prefix both resolve successfully (to a
sanitized name inside the sandbox) instead of failing with PathTraversal. -/
theorem c1_counterexample :
    getSafeFilePath 1 "../evil" =
      .ok [['u', 's', 'e', 'r', '_', '1'], ['_', '_', 'e', 'v', 'i', 'l']] ∧
    getSafeFilePath 1 "/etc/passwd" =
      .ok [['u', 's', 'e', 'r', '_', '1'],
           ['_', 'e', 't', 'c', '_', 'p', 'a', 's', 's', 'w', 'd']] := by
  constructor <;> rfl

/-! ### Archive validator lemmas -/

theorem zipLoop_error_first (s : Settings) :
    ∀ (pre : List ZipEntry) (e : ZipEntry) (post : List ZipEntry) (err : Err),
      (∀ x ∈ pre, entryCheck s x = none) → entryCheck s e = some err →
      ∀ c t r, zipLoop s (pre ++ e :: post) c t r = .error err := by
  intro pre
  induction pre with
  | nil =>
    intro e post err _ he c t r
    simp only [List.nil_append]
    unfold entryCheck at he
    split_ifs at he with h1 h2 h3 h4
    · injection he with he
      subst he
      simp [zipLoop, h1, h2]
    · injection he with he
      subst he
      simp [zipLoop, h1, h2, h3.1, h3.2]
    · injection he with he
      subst he
      by_cases hc : 0 < e.compress_size
      · have hr : ¬ ratioOf e > 100 := fun hr => h3 ⟨hc, hr⟩
        simp [zipLoop, h1, h2, hc, hr, h4]
      · simp [zipLoop, h1, h2, hc, h4]
  | cons x pre ih =>
    intro e post err hpre he c t r
    have hx : entryCheck s x = none := hpre x (List.mem_cons_self x pre)
    have hpre' : ∀ y ∈ pre, entryCheck s y = none := fun y hy =>
      hpre y (List.mem_cons_of_mem x hy)
    rw [List.cons_append]
    unfold entryCheck at hx
    split_ifs at hx with h1 h2 h3 h4
    · have hstep : zipLoop s (x :: (pre ++ e :: post)) c t r =
          zipLoop s (pre ++ e :: post) c t r := by
        simp [zipLoop, h1]
      rw [hstep]
      exact ih e post err hpre' he c t r
    · by_cases hc : 0 < x.compress_size
      · have hr : ¬ ratioOf x > 100 := fun hr => h3 ⟨hc, hr⟩
        have hstep : zipLoop s (x :: (pre ++ e :: post)) c t r =
            zipLoop s (pre ++ e :: post) (c + 1) (t + x.file_size)
              (r ++ [ratioOf x]) := by
          simp [zipLoop, h1, h2, hc, hr, h4]
        rw [hstep]
        exact ih e post err hpre' he _ _ _
      · have hstep : zipLoop s (x :: (pre ++ e :: post)) c t r =
            zipLoop s (pre ++ e :: post) (c + 1) (t + x.file_size) r := by
          simp [zipLoop, h1, h2, hc, h4]
        rw [hstep]
        exact ih e post err hpre' he _ _ _

theorem zipLoop_ok_all (s : Settings) :
    ∀ (l : List ZipEntry), (∀ x ∈ l, entryCheck s x = none) →
      ∀ c t r, zipLoop s l c t r =
        .ok (c + activeCount l, t + totalSize l, r ++ ratiosOf l) := by
  intro l
  induction l with
  | nil =>
    intro _ c t r
    simp [zipLoop, activeCount, activeEntries, totalSize, ratiosOf]
  | cons x rest ih =>
    intro h c t r
    have hx : entryCheck s x = none := h x (List.mem_cons_self x rest)
    have hrest : ∀ y ∈ rest, entryCheck s y = none := fun y hy =>
      h y (List.mem_cons_of_mem x hy)
    unfold entryCheck at hx
    split_ifs at hx with h1 h2 h3 h4
    · have hstep : zipLoop s (x :: rest) c t r = zipLoop s rest c t r := by
        simp [zipLoop, h1]
      have hA : activeCount (x :: rest) = activeCount rest := by
        simp [activeCount, activeEntries, h1]
      have hT : totalSize (x :: rest) = totalSize rest := by
        simp [totalSize, activeEntries, h1]
      have hR : ratiosOf (x :: rest) = ratiosOf rest := by
        simp [ratiosOf, activeEntries, h1]
      rw [hstep, hA, hT, hR]
      exact ih hrest c t r
    · have hA : activeCount (x :: rest) = activeCount rest + 1 := by
        simp [activeCount, activeEntries, h1]
      have hT : totalSize (x :: rest) = x.file_size + totalSize rest := by
        simp [totalSize, activeEntries, h1]
      by_cases hc : 0 < x.compress_size
      · have hr : ¬ ratioOf x > 100 := fun hr => h3 ⟨hc, hr⟩
        have hstep : zipLoop s (x :: rest) c t r =
            zipLoop s rest (c + 1) (t + x.file_size) (r ++ [ratioOf x]) := by
          simp [zipLoop, h1, h2, hc, hr, h4]
        have hR : ratiosOf (x :: rest) = ratioOf x :: ratiosOf rest := by
          simp [ratiosOf, activeEntries, h1, hc]
        rw [hstep, ih hrest, hA, hT, hR]
        simp only [Except.ok.injEq, Prod.mk.injEq]
        refine ⟨by omega, by omega, by simp⟩
      · have hstep : zipLoop s (x :: rest) c t r =
            zipLoop s rest (c + 1) (t + x.file_size) r := by
          simp [zipLoop, h1, h2, hc, h4]
        have hR : ratiosOf (x :: rest) = ratiosOf rest := by
          simp [ratiosOf, activeEntries, h1, hc]
        rw [hstep, ih hrest, hA, hT, hR]
        simp only [Except.ok.injEq, Prod.mk.injEq]
        refine ⟨by omega, by omega, by simp⟩

theorem validateZipArchive_of_loop_error {s : Settings} {entries : List ZipEntry}
    {err : Err} (h : zipLoop s entries 0 0 [] = .error err) :
    validateZipArchive s entries = .error err := by
  unfold validateZipArchive
  rw [h]

/-- C2 (amended): the ZIP-bomb heuristic.  A single entry with ratio above
100 triggers SuspiciousCompressionRatio provided the entry passes the
earlier size check and every earlier entry passes its per-entry checks; a
mean ratio above 50 triggers it provided every per-entry check, the
file-count check and the total-size check pass (a co-occurring violation
of one of those is reported instead).  Whenever validation fails, the
extraction routine decompresses no entry payload at all. -/
theorem c2_zip_bomb_heuristic :
    (∀ (s : Settings) (pre post : List ZipEntry) (e : ZipEntry),
        (∀ x ∈ pre, entryCheck s x = none) →
        e.isDir = false → e.file_size ≤ s.max_file_size →
        0 < e.compress_size → 100 < ratioOf e →
        validateZipArchive s (pre ++ e :: post) =
          .error .SuspiciousCompressionRatio) ∧
    (∀ (s : Settings) (entries : List ZipEntry),
        (∀ x ∈ entries, entryCheck s x = none) →
        activeCount entries ≤ s.max_archive_files →
        totalSize entries ≤ s.max_zip_size →
        ¬ ratiosOf entries = [] →
        50 < (ratiosOf entries).sum / ((ratiosOf entries).length : ℚ) →
        validateZipArchive s entries = .error .SuspiciousCompressionRatio) ∧
    (∀ (cfg : Config) (st : St) (uid : Nat) (extractDir : FsPath)
        (entries : List ZipEntry) (payload : String → List Nat) (err : Err),
        validateZipArchive cfg.settings entries = .error err →
        safeZipExtraction cfg st uid extractDir entries payload =
          (st, .error err, [])) := by
  refine ⟨?_, ?_, ?_⟩
  · intro s pre post e hpre hdir hsize hc hr
    have he : entryCheck s e = some .SuspiciousCompressionRatio := by
      unfold entryCheck
      rw [if_neg (by simp [hdir]), if_neg (by omega), if_pos ⟨hc, hr⟩]
    exact validateZipArchive_of_loop_error
      (zipLoop_error_first s pre e post _ hpre he 0 0 [])
  · intro s entries hall hcount htotal hne hmean
    unfold validateZipArchive
    rw [zipLoop_ok_all s entries hall 0 0 []]
    show aggChecks s (0 + activeCount entries) (0 + totalSize entries)
        ([] ++ ratiosOf entries) = _
    simp only [Nat.zero_add, List.nil_append]
    unfold aggChecks
    rw [if_neg (by omega), if_neg (by omega), if_pos ⟨hne, hmean⟩]
  · intro cfg st uid extractDir entries payload err h
    unfold safeZipExtraction
    rw [h]

/-- C2 witness: the three parts at concrete archives: a 250x entry, a mean
ratio of 60, and an invalid archive whose extraction reads nothing. -/
theorem c2_witness :
    validateZipArchive testSettings [ZipEntry.mk "big.bin" 500 2] =
      .error .SuspiciousCompressionRatio ∧
    validateZipArchive testSettings [ZipEntry.mk "a.bin" 120 2] =
      .error .SuspiciousCompressionRatio ∧
    safeZipExtraction testCfg st0 1 (sandbox 1) [ZipEntry.mk "../x" 60 1]
      (fun _ => []) = (st0, .error .DangerousPath, []) := by
  have hall : ∀ x ∈ [ZipEntry.mk "a.bin" 120 2],
      entryCheck testSettings x = none := by
    intro x hx
    rw [List.mem_singleton] at hx
    subst hx
    unfold entryCheck
    rw [if_neg (by decide), if_neg (by decide), if_neg (by norm_num [ratioOf]),
      if_neg (by decide)]
  have hrat : ratiosOf [ZipEntry.mk "a.bin" 120 2] =
      [ratioOf (ZipEntry.mk "a.bin" 120 2)] := rfl
  have hval : validateZipArchive testCfg.settings [ZipEntry.mk "../x" 60 1] =
      .error .DangerousPath := by
    have he : entryCheck testCfg.settings (ZipEntry.mk "../x" 60 1) =
        some .DangerousPath := by
      unfold entryCheck
      rw [if_neg (by decide), if_neg (by decide), if_neg (by norm_num [ratioOf]),
        if_pos (by decide)]
    exact validateZipArchive_of_loop_error
      (zipLoop_error_first _ [] _ [] _ (by simp) he 0 0 [])
  refine ⟨?_, ?_, ?_⟩
  · exact c2_zip_bomb_heuristic.1 testSettings [] [] _ (by simp) (by rfl)
      (by decide) (by decide) (by norm_num [ratioOf])
  · refine c2_zip_bomb_heuristic.2.1 testSettings _ hall (by decide) (by decide)
      (by rw [hrat]; simp) ?_
    rw [hrat]
    norm_num [ratioOf]
  · exact c2_zip_bomb_heuristic.2.2 testCfg st0 1 (sandbox 1) _ (fun _ => []) _ hval

/-- C2 counterexample to the claim as stated: an archive whose mean
compression ratio (60) exceeds 50 but which also contains a dangerous entry
name fails with DangerousPath, not SuspiciousCompressionRatio. -/
theorem c2_counterexample :
    50 < (ratiosOf [ZipEntry.mk "../x" 60 1]).sum /
      ((ratiosOf [ZipEntry.mk "../x" 60 1]).length : ℚ) ∧
    validateZipArchive testSettings [ZipEntry.mk "../x" 60 1] =
      .error .DangerousPath := by
  constructor
  · rw [show ratiosOf [ZipEntry.mk "../x" 60 1] =
        [ratioOf (ZipEntry.mk "../x" 60 1)] from rfl]
    norm_num [ratioOf]
  · have he : entryCheck testSettings (ZipEntry.mk "../x" 60 1) =
        some .DangerousPath := by
      unfold entryCheck
      rw [if_neg (by decide), if_neg (by decide), if_neg (by norm_num [ratioOf]),
        if_pos (by decide)]
    exact validateZipArchive_of_loop_error
      (zipLoop_error_first _ [] _ [] _ (by simp) he 0 0 [])

/-- C3 (amended): a non-directory entry whose name contains ".." or begins
with "/" is rejected with DangerousPath, provided it passes the earlier
per-entry size and ratio checks and every earlier entry passes its checks.
Directory entries (name ending in "/") are skipped entirely. -/
theorem c3_dangerous_path_detection
    (s : Settings) (pre post : List ZipEntry) (e : ZipEntry)
    (hpre : ∀ x ∈ pre, entryCheck s x = none)
    (hdir : e.isDir = false) (hsize : e.file_size ≤ s.max_file_size)
    (hratio : 0 < e.compress_size → ratioOf e ≤ 100)
    (hdang : dangerousName e.filename = true) :
    validateZipArchive s (pre ++ e :: post) = .error .DangerousPath := by
  have h3 : ¬ (0 < e.compress_size ∧ ratioOf e > 100) := fun h =>
    (not_lt.mpr (hratio h.1)) h.2
  have he : entryCheck s e = some .DangerousPath := by
    unfold entryCheck
    rw [if_neg (by simp [hdir]), if_neg (by omega), if_neg h3, if_pos hdang]
  exact validateZipArchive_of_loop_error
    (zipLoop_error_first s pre e post _ hpre he 0 0 [])

/-- C3 witness: the concrete scenario of the spec — an entry named
../../etc/passwd is rejected with DangerousPath. -/
theorem c3_witness :
    validateZipArchive testSettings [ZipEntry.mk "../../etc/passwd" 100 50] =
      .error .DangerousPath :=
  c3_dangerous_path_detection testSettings [] [] (ZipEntry.mk "../../etc/passwd" 100 50)
    (by simp) (by rfl) (by decide) (fun _ => by norm_num [ratioOf]) (by rfl)

/-- C3 counterexample to the claim as stated: a directory entry whose name
contains ".." is skipped by the validation loop, so the archive passes
validation instead of failing with DangerousPath. -/
theorem c3_counterexample :
    dangerousName "../x/" = true ∧
    validateZipArchive testSettings [ZipEntry.mk "../x/" 0 0] = .ok () :=
  ⟨by rfl, by rfl⟩

/-! ### File store lemmas -/

theorem diskGet_cons (a : FsPath) (b : List Nat) (l : Disk) (p : FsPath) :
    diskGet ((a, b) :: l) p = if a = p then some b else diskGet l p := rfl

theorem diskGet_set (d : Disk) (p : FsPath) (b : List Nat) :
    diskGet (diskSet d p b) p = some b := by
  simp [diskGet, diskSet]

theorem diskGet_remove (d : Disk) (p : FsPath) :
    diskGet (diskRemove d p) p = none := by
  induction d with
  | nil => rfl
  | cons q rest ih =>
    obtain ⟨a, b⟩ := q
    unfold diskRemove at ih ⊢
    rw [List.filter_cons]
    by_cases ha : a = p
    · rw [if_neg (by simp [ha])]
      exact ih
    · rw [if_pos (by simp [ha]), diskGet_cons, if_neg ha]
      exact ih

theorem findRec_cons (g : FileRec) (l : List FileRec) (uid fid : Nat) :
    findRec (g :: l) uid fid =
      if g.id = fid ∧ g.owner_id = uid then some g else findRec l uid fid := rfl

theorem findRec_some {files : List FileRec} {uid fid : Nat} {f : FileRec}
    (h : findRec files uid fid = some f) :
    f.id = fid ∧ f.owner_id = uid ∧ f ∈ files := by
  induction files with
  | nil => simp [findRec] at h
  | cons g rest ih =>
    rw [findRec_cons] at h
    split at h
    · injection h with h
      subst h
      rename_i hc
      exact ⟨hc.1, hc.2, List.mem_cons_self _ _⟩
    · obtain ⟨h1, h2, h3⟩ := ih h
      exact ⟨h1, h2, List.mem_cons_of_mem _ h3⟩

theorem findRec_none {files : List FileRec} {uid fid : Nat}
    (h : ∀ g ∈ files, ¬ (g.id = fid ∧ g.owner_id = uid)) :
    findRec files uid fid = none := by
  induction files with
  | nil => rfl
  | cons g rest ih =>
    rw [findRec_cons, if_neg (h g (List.mem_cons_self _ _))]
    exact ih fun x hx => h x (List.mem_cons_of_mem _ hx)

theorem findRec_append_new (files : List FileRec) (f : FileRec) (uid : Nat)
    (hw : ∀ g ∈ files, g.id < f.id) (hown : f.owner_id = uid) :
    findRec (files ++ [f]) uid f.id = some f := by
  induction files with
  | nil => simp [findRec_cons, hown]
  | cons g rest ih =>
    rw [List.cons_append, findRec_cons, if_neg]
    · exact ih fun x hx => hw x (List.mem_cons_of_mem _ hx)
    · intro hc
      exact absurd hc.1 (Nat.ne_of_lt (hw g (List.mem_cons_self _ _)))

theorem dupExists_false_filter {files : List FileRec} {uid : Nat} {fn : String}
    {dir : Option Nat} (h : dupExists files uid fn dir = false) :
    files.filter (fun f => decide (f.original_name = fn ∧ f.owner_id = uid ∧
      f.directory_id = dir)) = [] := by
  induction files with
  | nil => rfl
  | cons g rest ih =>
    unfold dupExists at h ih
    rw [List.any_cons, Bool.or_eq_false_iff] at h
    rw [List.filter_cons, if_neg (by simp [h.1])]
    exact ih h.2

theorem getSafeFilePath_prefix {uid : Nat} {fn : String} {path : FsPath}
    (h : getSafeFilePath uid fn = .ok path) : sandbox uid <+: path := by
  unfold getSafeFilePath at h
  split at h
  · exact absurd h (by simp)
  · split at h
    · injection h with h
      subst h
      rename_i hpre
      exact List.isPrefixOf_iff_prefix.mp hpre
    · exact absurd h (by simp)

theorem createFile_ok_elim {cfg : Config} {st : St} {uid : Nat} {fn : String}
    {c : List Nat} {enc : Bool} {dir : Option Nat} {st' : St} {fo : FileRec}
    {w : List String}
    (h : createFile cfg st uid fn c enc dir = (st', .ok (fo, w))) :
    ∃ path,
      getSafeFilePath uid fn = .ok path ∧
      ¬ path = sandbox uid ∧
      dupExists st.files uid fn dir = false ∧
      ¬ c.length > cfg.settings.max_file_size ∧
      (fmtCheck cfg fn c).1 = true ∧
      w = (fmtCheck cfg fn c).2 ∧
      fo = { id := st.next_id, filename := path.getLastD [],
             original_name := fn, size := c.length,
             mime_type := cfg.guessMime fn,
             checksum := cfg.sha256 (if enc then cfg.encryptData c else c),
             storage_path := path, is_encrypted := enc,
             owner_id := uid, directory_id := dir } ∧
      st' = { disk := diskSet st.disk path
                (if enc then cfg.encryptData c else c),
              files := st.files ++ [fo], next_id := st.next_id + 1 } := by
  unfold createFile at h
  split at h
  next hsz => exact absurd (congrArg Prod.snd h) (by simp)
  next hsz =>
    split at h
    next hfmt => exact absurd (congrArg Prod.snd h) (by simp)
    next hfmt =>
      split at h
      next e heq => exact absurd (congrArg Prod.snd h) (by simp)
      next path heq =>
        split at h
        next hdup => exact absurd (congrArg Prod.snd h) (by simp)
        next hdup =>
          split at h
          next hsb => exact absurd (congrArg Prod.snd h) (by simp)
          next hsb =>
            rw [Prod.mk.injEq] at h
            obtain ⟨hst, hres⟩ := h
            injection hres with hres
            rw [Prod.mk.injEq] at hres
            obtain ⟨hfo, hw⟩ := hres
            subst hfo
            subst hw
            exact ⟨path, heq, hsb, by simpa using hdup, hsz,
              by simpa using hfmt, rfl, rfl, hst.symm⟩

/-! ### Claims C4 to C10 -/

/-- C4: for content accepted by create with encrypt=false, reading the
created file back returns exactly the written bytes, and the stored
checksum is a freshly computed hash of those bytes.  The well-formedness
hypothesis (ids below next_id) holds in every reachable store. -/
theorem c4_create_read_roundtrip
    (cfg : Config) (st : St) (uid : Nat) (fn : String) (c : List Nat)
    (dir : Option Nat) (st' : St) (fo : FileRec) (w : List String)
    (hwf : ∀ f ∈ st.files, f.id < st.next_id)
    (h : createFile cfg st uid fn c false dir = (st', .ok (fo, w))) :
    readFile cfg st' uid fo.id = .ok (fo, c) ∧ fo.checksum = cfg.sha256 c := by
  obtain ⟨path, hpath, hsb, hdup, hsz, hfmt, hw, hfo, hst⟩ := createFile_ok_elim h
  have hid : fo.id = st.next_id := by rw [hfo]
  have hown : fo.owner_id = uid := by rw [hfo]
  have henc : fo.is_encrypted = false := by rw [hfo]
  have hsp : fo.storage_path = path := by rw [hfo]
  have hck : fo.checksum = cfg.sha256 c := by simp [hfo]
  refine ⟨?_, hck⟩
  have hfiles : st'.files = st.files ++ [fo] := by rw [hst]
  have hfind : findRec st'.files uid fo.id = some fo := by
    rw [hfiles]
    exact findRec_append_new st.files fo uid
      (fun g hg => by rw [hid]; exact hwf g hg) hown
  have hdisk : diskGet st'.disk fo.storage_path = some c := by
    rw [hst, hsp]
    simp [diskGet_set]
  simp [readFile, hfind, hdisk, henc]

/-- C4 witness: the theorem at create(user 1, "a.txt", [104, 105]). -/
theorem c4_witness :
    readFile testCfg c4St 1 c4Rec.id = .ok (c4Rec, [104, 105]) ∧
    c4Rec.checksum = testCfg.sha256 [104, 105] :=
  c4_create_read_roundtrip testCfg st0 1 "a.txt" [104, 105] none c4St c4Rec []
    (by simp [st0]) (by rfl)

/-- C5: once a create for (owner, directory, displayName) has succeeded, a
second create for the same triple — with any content passing the size and
format prechecks — fails with DuplicateName and leaves exactly one record
for that triple in the store. -/
theorem c5_duplicate_name_rejected
    (cfg : Config) (st : St) (uid : Nat) (fn : String) (c1 c2 : List Nat)
    (enc1 enc2 : Bool) (dir : Option Nat) (st1 : St) (fo : FileRec)
    (w : List String)
    (h : createFile cfg st uid fn c1 enc1 dir = (st1, .ok (fo, w)))
    (hsz : ¬ c2.length > cfg.settings.max_file_size)
    (hfmt : (fmtCheck cfg fn c2).1 = true) :
    createFile cfg st1 uid fn c2 enc2 dir = (st1, .error .DuplicateName) ∧
    (st1.files.filter fun f => decide (f.original_name = fn ∧
        f.owner_id = uid ∧ f.directory_id = dir)).length = 1 := by
  obtain ⟨path, hpath, hsb, hdup, _, _, hw, hfo, hst⟩ := createFile_ok_elim h
  have h1 : fo.original_name = fn := by rw [hfo]
  have h2 : fo.owner_id = uid := by rw [hfo]
  have h3 : fo.directory_id = dir := by rw [hfo]
  have hfiles : st1.files = st.files ++ [fo] := by rw [hst]
  have hdup1 : dupExists st1.files uid fn dir = true := by
    rw [hfiles]
    unfold dupExists
    rw [List.any_append]
    simp [List.any_cons, h1, h2, h3]
  constructor
  · simp [createFile, hsz, hfmt, hpath, hdup1]
  · rw [hfiles, List.filter_append, dupExists_false_filter hdup]
    simp [h1, h2, h3]

/-- C5 witness: two concrete creates of "a.txt". -/
theorem c5_witness :
    createFile testCfg c4St 1 "a.txt" [1] false none =
      (c4St, .error .DuplicateName) ∧
    (c4St.files.filter fun f => decide (f.original_name = "a.txt" ∧
        f.owner_id = 1 ∧ f.directory_id = none)).length = 1 :=
  c5_duplicate_name_rejected testCfg st0 1 "a.txt" [104, 105] [1] false false
    none c4St c4Rec [] (by rfl) (by decide) (by rfl)

/-- C6 (amended): delete removes the bytes if present (missing bytes are
not an error) and the record, returning true; when no record matches it
raises NotFound — it never returns false — and the state, hence every
other file, is unchanged. -/
theorem c6_delete_raises_not_found :
    (∀ (cfg : Config) (st : St) (uid fid : Nat),
        findRec st.files uid fid = none →
        deleteFile cfg st uid fid = (st, .error .NotFound)) ∧
    (∀ (cfg : Config) (st : St) (uid fid : Nat) (f : FileRec),
        findRec st.files uid fid = some f →
        ∃ st', deleteFile cfg st uid fid = (st', .ok true) ∧
          diskGet st'.disk f.storage_path = none ∧
          findRec st'.files uid fid = none ∧
          ∀ g ∈ st.files, ¬ g.id = f.id → g ∈ st'.files) := by
  constructor
  · intro cfg st uid fid h
    unfold deleteFile
    rw [h]
  · intro cfg st uid fid f h
    have hdel : deleteFile cfg st uid fid =
        ({ disk := diskRemove st.disk f.storage_path,
           files := st.files.filter fun g => decide (¬ g.id = f.id),
           next_id := st.next_id }, .ok true) := by
      unfold deleteFile
      rw [h]
    refine ⟨_, hdel, ?_, ?_, ?_⟩
    · exact diskGet_remove st.disk f.storage_path
    · apply findRec_none
      intro g hg hc
      have hg' : g ∈ st.files.filter (fun g => decide (¬ g.id = f.id)) := hg
      rw [List.mem_filter] at hg'
      have hne : ¬ g.id = f.id := by simpa using hg'.2
      exact hne (by rw [hc.1, (findRec_some h).1])
    · intro g hg hne
      exact List.mem_filter.mpr ⟨hg, by simpa using hne⟩

/-- C6 witness: both parts at concrete stores. -/
theorem c6_witness :
    deleteFile testCfg st0 1 5 = (st0, .error .NotFound) ∧
    (∃ st', deleteFile testCfg c6St 1 0 = (st', .ok true) ∧
      diskGet st'.disk c6Rec.storage_path = none ∧
      findRec st'.files 1 0 = none ∧
      ∀ g ∈ c6St.files, ¬ g.id = c6Rec.id → g ∈ st'.files) :=
  ⟨c6_delete_raises_not_found.1 testCfg st0 1 5 (by rfl),
   c6_delete_raises_not_found.2 testCfg c6St 1 0 c6Rec (by rfl)⟩

/-- C6 counterexample to the claim as stated: deleting a never-existing id
raises NotFound instead of returning false. -/
theorem c6_counterexample :
    deleteFile testCfg st0 7 3 = (st0, .error .NotFound) ∧
    ¬ (deleteFile testCfg st0 7 3).2 = .ok false :=
  ⟨by rfl, by decide⟩

/-- C7 (amended): after a successful create or update, the record's size is
the plaintext length and its checksum is the hash of the bytes now on disk
at its storage location.  A create's storage location is strictly inside
the owner sandbox; an update never changes the updated record's storage
location — it overwrites the bytes at the location of the existing record —
so a location strictly inside the sandbox stays strictly inside it.  Only
uniqueness fails: storage locations are NOT unique among an owner's
records — see the counterexample. -/
theorem c7_record_invariants :
    (∀ (cfg : Config) (st : St) (uid : Nat) (fn : String) (c : List Nat)
        (enc : Bool) (dir : Option Nat) (st' : St) (fo : FileRec)
        (w : List String),
        createFile cfg st uid fn c enc dir = (st', .ok (fo, w)) →
        fo.size = c.length ∧
        diskGet st'.disk fo.storage_path =
          some (if enc then cfg.encryptData c else c) ∧
        fo.checksum = cfg.sha256 (if enc then cfg.encryptData c else c) ∧
        sandbox uid <+: fo.storage_path ∧ ¬ fo.storage_path = sandbox uid) ∧
    (∀ (cfg : Config) (st : St) (uid fid : Nat) (newContent : List Nat)
        (st' : St) (fo : FileRec),
        updateFile cfg st uid fid newContent = (st', .ok fo) →
        fo.size = newContent.length ∧
        diskGet st'.disk fo.storage_path = some newContent ∧
        fo.checksum = cfg.sha256 newContent ∧
        ∃ f, findRec st.files uid fid = some f ∧
          fo.storage_path = f.storage_path ∧
          (sandbox uid <+: f.storage_path ∧ ¬ f.storage_path = sandbox uid →
            sandbox uid <+: fo.storage_path ∧
            ¬ fo.storage_path = sandbox uid)) := by
  constructor
  · intro cfg st uid fn c enc dir st' fo w h
    obtain ⟨path, hpath, hsb, _, _, _, _, hfo, hst⟩ := createFile_ok_elim h
    subst hfo
    subst hst
    exact ⟨rfl, diskGet_set _ _ _, rfl, getSafeFilePath_prefix hpath, hsb⟩
  · intro cfg st uid fid newContent st' fo h
    unfold updateFile at h
    split at h
    · exact absurd (congrArg Prod.snd h) (by simp)
    · rename_i f hfind
      split at h
      · exact absurd (congrArg Prod.snd h) (by simp)
      · split at h
        · exact absurd (congrArg Prod.snd h) (by simp)
        · rw [Prod.mk.injEq] at h
          obtain ⟨hst, hres⟩ := h
          injection hres with hres
          subst hres
          subst hst
          exact ⟨rfl, diskGet_set _ _ _, rfl, f, hfind, rfl, fun hin => hin⟩

/-- C7 witness: the invariants at a concrete create and a concrete update. -/
theorem c7_witness :
    (c7WRec.size = [7, 8].length ∧
     diskGet c7WSt.disk c7WRec.storage_path =
       some (if false then testCfg.encryptData [7, 8] else [7, 8]) ∧
     c7WRec.checksum =
       testCfg.sha256 (if false then testCfg.encryptData [7, 8] else [7, 8]) ∧
     sandbox 1 <+: c7WRec.storage_path ∧
     ¬ c7WRec.storage_path = sandbox 1) ∧
    (c7WURec.size = [9].length ∧
     diskGet c7WUSt.disk c7WURec.storage_path = some [9] ∧
     c7WURec.checksum = testCfg.sha256 [9] ∧
     ∃ f, findRec c7WSt.files 1 0 = some f ∧
       c7WURec.storage_path = f.storage_path ∧
       (sandbox 1 <+: f.storage_path ∧ ¬ f.storage_path = sandbox 1 →
         sandbox 1 <+: c7WURec.storage_path ∧
         ¬ c7WURec.storage_path = sandbox 1)) :=
  ⟨c7_record_invariants.1 testCfg st0 1 "w.txt" [7, 8] false none c7WSt c7WRec
      [] (by rfl),
   c7_record_invariants.2 testCfg c7WSt 1 0 [9] c7WUSt c7WURec (by rfl)⟩

/-- C7 counterexample to the uniqueness clause: two successful creates for
the same owner whose display names sanitize to the same on-disk name yield
two records sharing one storage location. -/
theorem c7_counterexample :
    (createFile testCfg st0 1 "a_b.txt" [65] false none).2 =
      .ok (c7Rec1, []) ∧
    (createFile testCfg (createFile testCfg st0 1 "a_b.txt" [65] false none).1
        1 "a/b.txt" [66] false none).2 = .ok (c7Rec2, []) ∧
    ¬ c7Rec1.id = c7Rec2.id ∧ c7Rec1.storage_path = c7Rec2.storage_path :=
  ⟨by rfl, by rfl, by decide, by rfl⟩

/-- C8 (amended): for a stored encrypted record, read fails with
NotSupported whenever the backing bytes are on disk (a record whose bytes
were lost fails with NotFound first), and update fails with NotSupported
for every new content within the size limit (oversized content fails with
SizeLimitExceeded first); failed updates return the state unchanged. -/
theorem c8_encrypted_records_not_supported :
    (∀ (cfg : Config) (st : St) (uid fid : Nat) (f : FileRec) (b : List Nat),
        findRec st.files uid fid = some f → f.is_encrypted = true →
        diskGet st.disk f.storage_path = some b →
        readFile cfg st uid fid = .error .NotSupported) ∧
    (∀ (cfg : Config) (st : St) (uid fid : Nat) (f : FileRec) (c : List Nat),
        findRec st.files uid fid = some f → f.is_encrypted = true →
        ¬ c.length > cfg.settings.max_file_size →
        updateFile cfg st uid fid c = (st, .error .NotSupported)) := by
  constructor
  · intro cfg st uid fid f b hfind henc hdisk
    simp [readFile, hfind, hdisk, henc]
  · intro cfg st uid fid f c hfind henc hsz
    simp [updateFile, hfind, hsz, henc]

/-- C8 witness: read and update of a freshly created encrypted file. -/
theorem c8_witness :
    readFile tinyCfg c8StA 1 0 = .error .NotSupported ∧
    updateFile tinyCfg c8StA 1 0 [9] = (c8StA, .error .NotSupported) :=
  ⟨c8_encrypted_records_not_supported.1 tinyCfg c8StA 1 0 c8Rec [65] (by rfl)
      (by rfl) (by rfl),
   c8_encrypted_records_not_supported.2 tinyCfg c8StA 1 0 c8Rec [9] (by rfl)
      (by rfl) (by decide)⟩

/-- C8 counterexample to the claim as stated, at a reachable store c8St
(create encrypted "a_b.txt"; create "a/b.txt", which shares its sanitized
storage path; delete the latter, destroying the shared bytes): reading the
encrypted record fails with NotFound, not NotSupported, and an oversized
update fails with SizeLimitExceeded, not NotSupported. -/
theorem c8_counterexample :
    findRec c8St.files 1 0 = some c8Rec ∧
    c8Rec.is_encrypted = true ∧
    readFile tinyCfg c8St 1 0 = .error .NotFound ∧
    updateFile tinyCfg c8St 1 0 [0, 0] = (c8St, .error .SizeLimitExceeded) :=
  ⟨by rfl, by rfl, by rfl, by rfl⟩

theorem createFile_ok_intro (cfg : Config) (st : St) (uid : Nat) (fn : String)
    (c : List Nat) (enc : Bool) (dir : Option Nat) (path : FsPath)
    (hsz : ¬ c.length > cfg.settings.max_file_size)
    (hfmt : (fmtCheck cfg fn c).1 = true)
    (hpath : getSafeFilePath uid fn = .ok path)
    (hdup : dupExists st.files uid fn dir = false)
    (hsb : ¬ path = sandbox uid) :
    createFile cfg st uid fn c enc dir =
      ({ disk := diskSet st.disk path (if enc then cfg.encryptData c else c),
         files := st.files ++
           [{ id := st.next_id, filename := path.getLastD [],
              original_name := fn, size := c.length,
              mime_type := cfg.guessMime fn,
              checksum := cfg.sha256 (if enc then cfg.encryptData c else c),
              storage_path := path, is_encrypted := enc,
              owner_id := uid, directory_id := dir }],
         next_id := st.next_id + 1 },
       .ok ({ id := st.next_id, filename := path.getLastD [],
              original_name := fn, size := c.length,
              mime_type := cfg.guessMime fn,
              checksum := cfg.sha256 (if enc then cfg.encryptData c else c),
              storage_path := path, is_encrypted := enc,
              owner_id := uid, directory_id := dir },
             (fmtCheck cfg fn c).2)) := by
  simp [createFile, hsz, hfmt, hpath, hdup, hsb]

/-- C9: the suspicious-pattern scan in JSON/XML content inspection never
blocks a create.  For content that parses within the configured limits but
contains suspicious patterns, create (with the other prechecks passing)
succeeds, returning the nonempty warning list that is merely logged. -/
theorem c9_pattern_scan_never_blocks :
    (∀ (cfg : Config) (st : St) (uid : Nat) (fn : String) (c : List Nat)
        (dir : Option Nat) (d : Json) (path : FsPath),
        endsLower fn ".json" = true →
        cfg.jsonParse c = some d →
        ¬ c.length > maxJsonSize →
        ¬ jsonDepth d > maxJsonDepthLimit →
        ¬ suspiciousJson d = [] →
        ¬ c.length > cfg.settings.max_file_size →
        getSafeFilePath uid fn = .ok path →
        ¬ path = sandbox uid →
        dupExists st.files uid fn dir = false →
        ∃ st' fo, createFile cfg st uid fn c false dir =
            (st', .ok (fo, suspiciousJson d)) ∧ ¬ suspiciousJson d = []) ∧
    (∀ (cfg : Config) (st : St) (uid : Nat) (fn : String) (c : List Nat)
        (dir : Option Nat) (x : Xml) (path : FsPath),
        endsLower fn ".json" = false →
        endsLower fn ".xml" = true →
        cfg.xmlParse c = some x →
        ¬ c.length > maxXmlSize →
        ¬ xmlCount x > maxXmlElements →
        ¬ suspiciousXml x = [] →
        ¬ c.length > cfg.settings.max_file_size →
        getSafeFilePath uid fn = .ok path →
        ¬ path = sandbox uid →
        dupExists st.files uid fn dir = false →
        ∃ st' fo, createFile cfg st uid fn c false dir =
            (st', .ok (fo, suspiciousXml x)) ∧ ¬ suspiciousXml x = []) := by
  constructor
  · intro cfg st uid fn c dir d path hje hparse hszJ hdep hsusp hszF hpath hsb hdup
    have hfmt : fmtCheck cfg fn c = (true, suspiciousJson d) := by
      unfold fmtCheck validateFileFormat safeLoadJson
      rw [hje]
      simp [hszJ, hparse, hdep]
    have hcr := createFile_ok_intro cfg st uid fn c false dir path hszF
      (by rw [hfmt]) hpath hdup hsb
    simp only [hfmt] at hcr
    exact ⟨_, _, hcr, hsusp⟩
  · intro cfg st uid fn c dir x path hjf hxe hparse hszX hcnt hsusp hszF hpath
      hsb hdup
    have hfmt : fmtCheck cfg fn c = (true, suspiciousXml x) := by
      unfold fmtCheck validateFileFormat safeLoadXml
      rw [hjf, hxe]
      simp [hszX, hparse, hcnt]
    have hcr := createFile_ok_intro cfg st uid fn c false dir path hszF
      (by rw [hfmt]) hpath hdup hsb
    simp only [hfmt] at hcr
    exact ⟨_, _, hcr, hsusp⟩

/-- C9 witness: a JSON string value and an XML attribute value containing
the pattern eval( — both creates succeed, logging the warnings. -/
theorem c9_witness :
    (∃ st' fo, createFile testCfgJson st0 1 "a.json" [1, 2] false none =
        (st', .ok (fo, suspiciousJson (Json.str "eval(x)"))) ∧
      ¬ suspiciousJson (Json.str "eval(x)") = []) ∧
    (∃ st' fo, createFile testCfgXml st0 1 "a.xml" [1, 2] false none =
        (st', .ok (fo, suspiciousXml
          (Xml.elem "a" [("x", "eval(y)")] "" XmlList.nil))) ∧
      ¬ suspiciousXml (Xml.elem "a" [("x", "eval(y)")] "" XmlList.nil) = []) :=
  ⟨c9_pattern_scan_never_blocks.1 testCfgJson st0 1 "a.json" [1, 2] none
      (Json.str "eval(x)") _ (by rfl) (by rfl) (by decide) (by decide)
      (by decide) (by decide) (by rfl) (by decide) (by rfl),
   c9_pattern_scan_never_blocks.2 testCfgXml st0 1 "a.xml" [1, 2] none
      (Xml.elem "a" [("x", "eval(y)")] "" XmlList.nil) _ (by rfl) (by rfl)
      (by rfl) (by decide) (by decide) (by decide) (by decide) (by rfl)
      (by decide) (by rfl)⟩

/-- C10: for names ending in .json or .xml (case-insensitive), when the
content fails format validation (parse failure or a size, depth or
element-count limit), create fails with the state — disk bytes included —
unchanged; within the file-size limit the error is precisely InvalidFormat,
showing the gate fires before the path, duplicate-name and write steps. -/
theorem c10_format_gate_blocks_before_write
    (cfg : Config) (st : St) (uid : Nat) (fn : String) (c : List Nat)
    (enc : Bool) (dir : Option Nat)
    (hext : endsLower fn ".json" = true ∨ endsLower fn ".xml" = true)
    (hbad : (validateFileFormat cfg fn c).1 = false) :
    (createFile cfg st uid fn c enc dir).1 = st ∧
    (∃ e, (createFile cfg st uid fn c enc dir).2 = .error e) ∧
    (¬ c.length > cfg.settings.max_file_size →
      (createFile cfg st uid fn c enc dir).2 = .error .InvalidFormat) := by
  have hOr : (endsLower fn ".json" || endsLower fn ".xml") = true := by
    rcases hext with h | h <;> simp [h]
  have hfc : (fmtCheck cfg fn c).1 = false := by
    unfold fmtCheck
    rw [hOr]
    simpa using hbad
  by_cases hsz : c.length > cfg.settings.max_file_size
  · exact ⟨by simp [createFile, hsz], ⟨.SizeLimitExceeded,
      by simp [createFile, hsz]⟩, fun hc => absurd hsz hc⟩
  · exact ⟨by simp [createFile, hsz, hfc], ⟨.InvalidFormat,
      by simp [createFile, hsz, hfc]⟩, fun _ => by simp [createFile, hsz, hfc]⟩

/-- C10 witness: content that does not parse as JSON (the parser yields
nothing) makes create fail with InvalidFormat and leave the store
untouched. -/
theorem c10_witness :
    (createFile testCfg st0 1 "a.json" [1] false none).1 = st0 ∧
    (∃ e, (createFile testCfg st0 1 "a.json" [1] false none).2 = .error e) ∧
    (¬ ([1] : List Nat).length > testCfg.settings.max_file_size →
      (createFile testCfg st0 1 "a.json" [1] false none).2 =
        .error .InvalidFormat) :=
  c10_format_gate_blocks_before_write testCfg st0 1 "a.json" [1] false none
    (Or.inl (by rfl)) (by rfl)

end SFM
